import Mathlib

/-!
# Verification of the NLAP task-orchestration core

A shallow embedding of the `ActionRegistry` (registry module) and the
`DAGExecutor` (executor module) of the NLAP TypeScript library, together with
theorems settling the specification claims about registration validation,
dependency-ordered execution, retry, compensation and result accounting.

Modelling conventions:
* JS `Map` objects are association lists; `Map.set` on a fresh key appends,
  on an existing key it replaces the binding in place (insertion order is
  preserved, last write wins on lookup collisions created by duplicate keys).
* JS `Set` objects are duplicate-free lists keeping the first insertion.
* Thrown errors become explicit error values; `async` code is sequentialised
  (batch members run one after another before any of their outcomes is
  merged, which matches the `Promise.all` join point of the source).
* Handlers are functions from the number of previous invocations of the same
  action's handler in the current execution to an outcome; this captures the
  stateful counter handlers used throughout the source's tests.
* Success values are `Nat` (the source stores `unknown`), errors are their
  message strings.
-/

namespace NLAP

/-- Backoff kind of a retry policy (`'linear' | 'exponential'`). -/
inductive Backoff where
  | linear
  | exponential
deriving DecidableEq

/-- Retry policy (`RetryConfig`): maximum number of attempts, backoff kind,
base delay in milliseconds. -/
structure RetryConfig where
  maxAttempts : Nat
  backoff : Backoff
  delayMs : Nat
deriving DecidableEq

/-- A call outcome: `{ result }` on success or `{ result: undefined, error }`. -/
abbrev Out := Except String Nat

/-- An action definition (`ActionDefinition`). `argsSchema` records presence of
the schema object (the registry only checks its truthiness). The handler is a
function of the number of its previous invocations in this execution; the
compensating handler receives the recorded success value and reports whether
it completed without throwing. -/
structure ActionDefinition where
  id : String
  description : String
  argsSchema : Bool := true
  dependencies : List String := []
  tags : List String := []
  retry : Option RetryConfig := none
  handler : Option (Nat → Out) := none
  compensate : Option (Nat → Bool) := none

/-- Errors thrown by `ActionRegistry.register`: the lock check, the structural
definition checks, the unknown-dependency check and circular-dependency
detection, in the order the source performs them. -/
inductive RegErr where
  | locked
  | invalidDef (msg : String)
  | unknownDep (actionId dep : String)
  | circular (cycle : List String)
deriving DecidableEq

/-- The registry state: the action catalog, the tag index, the reverse
dependency graph and the lock flag (`ActionRegistry`'s private fields). -/
structure Registry where
  actions : List (String × ActionDefinition) := []
  actionsByTag : List (String × List String) := []
  dependencyGraph : List (String × List String) := []
  locked : Bool := false

/-- `ActionRegistry.get`. -/
def Registry.get (r : Registry) (actionId : String) : Option ActionDefinition :=
  r.actions.lookup actionId

/-- Replace the binding of `k` in an association list in place (JS `Map.set`
on an existing key keeps its position). -/
def setAssoc (l : List (String × List String)) (k : String) (v : List String) :
    List (String × List String) :=
  l.map (fun p => if p.1 = k then (k, v) else p)

/-- Add `id` to the set stored under `tag`, creating the entry if missing
(one step of `indexByTags`). -/
def tagAdd (idx : List (String × List String)) (tag id : String) :
    List (String × List String) :=
  match idx.lookup tag with
  | some ids => setAssoc idx tag (if id ∈ ids then ids else ids ++ [id])
  | none => idx ++ [(tag, [id])]

/-- `ActionRegistry.indexByTags`: index the action's id under each of its tags. -/
def indexByTags (idx : List (String × List String)) (id : String)
    (tags : List String) : List (String × List String) :=
  tags.foldl (fun acc t => tagAdd acc t id) idx

/-- `ActionRegistry.buildDependencyGraph`: record the new action as a dependent
of each of its dependencies (reverse dependency graph). -/
def buildDependencyGraph (g : List (String × List String)) (id : String)
    (deps : List String) : List (String × List String) :=
  deps.foldl (fun acc dep => tagAdd acc dep id) g

/-- `ActionRegistry.validateActionDefinition`: the structural checks, in source
order (string id present, id not already registered, description present,
args schema present). -/
def validateActionDefinition (r : Registry) (a : ActionDefinition) : Option RegErr :=
  if a.id = "" then some (.invalidDef "Action must have a string ID")
  else if (r.actions.lookup a.id).isSome then
    some (.invalidDef ("Action \"" ++ a.id ++ "\" already registered"))
  else if a.description = "" then
    some (.invalidDef ("Action \"" ++ a.id ++ "\" must have a description"))
  else if a.argsSchema = false then
    some (.invalidDef ("Action \"" ++ a.id ++ "\" must have an argsSchema"))
  else none

/-- `ActionRegistry.validateDependencies`: fail on the first declared
dependency that is not in the catalog. -/
def validateDependencies (r : Registry) (a : ActionDefinition) : Option RegErr :=
  match a.dependencies.find? (fun d => (r.actions.lookup d).isNone) with
  | some d => some (.unknownDep a.id d)
  | none => none

/-- `ActionRegistry.detectCircularDependencies`: depth-first walk of registered
dependency chains with per-branch copies of `visited` and `path`. The source
recurses without bound; registries reachable through `register` are acyclic, so
a fuel of one more than the catalog size never runs out (the walk only visits
registered actions and the fresh root). Where the source skips the recursive
call when the dependency's `dependencies` field is `undefined`, we recurse on
the (possibly empty) list; the skipped `visited` check can only differ on a
cyclic catalog, which `register` never produces. -/
def detectCircular (r : Registry) : Nat → String → List String → List String →
    List String → Option RegErr
  | 0, _, _, _, _ => none
  | fuel + 1, actionId, deps, visited, path =>
    if actionId ∈ visited then some (.circular (path ++ [actionId]))
    else
      let visited1 := visited ++ [actionId]
      let path1 := path ++ [actionId]
      deps.foldl
        (fun acc dep =>
          match acc with
          | some e => some e
          | none =>
            match r.actions.lookup dep with
            | some depAction =>
              detectCircular r fuel dep depAction.dependencies visited1 path1
            | none => none)
        none

/-- `ActionRegistry.register`: the validation sequence followed, on success, by
the catalog insertion, tag indexing and reverse-graph update. Returns the new
registry and the thrown error, if any; on error the input registry is returned
unchanged (the source mutates only after all validations pass). -/
def register (r : Registry) (a : ActionDefinition) : Registry × Option RegErr :=
  if r.locked then (r, some .locked)
  else
    match validateActionDefinition r a with
    | some e => (r, some e)
    | none =>
      match validateDependencies r a with
      | some e => (r, some e)
      | none =>
        match detectCircular r (r.actions.length + 1) a.id a.dependencies [] [] with
        | some e => (r, some e)
        | none =>
          ({ actions := r.actions ++ [(a.id, a)],
             actionsByTag := indexByTags r.actionsByTag a.id a.tags,
             dependencyGraph := buildDependencyGraph r.dependencyGraph a.id a.dependencies,
             locked := r.locked }, none)

/-- `ActionRegistry.lock`. -/
def lockReg (r : Registry) : Registry := { r with locked := true }

/-- `ActionRegistry.getByTags`: empty query returns no actions; otherwise the
tag sets are intersected (JS `reduce` seeded by the first set) and the
surviving ids are resolved through the catalog. -/
def getByTags (r : Registry) (tags : List String) : List ActionDefinition :=
  match tags with
  | [] => []
  | t :: ts =>
    let first := (r.actionsByTag.lookup t).getD []
    let inter := ts.foldl
      (fun acc tag => acc.filter (fun x => x ∈ (r.actionsByTag.lookup tag).getD [])) first
    inter.filterMap (fun id => r.actions.lookup id)

/-- Consistency of the tag index with the catalog: every indexed id is a
registered action carrying that tag, and every registered action is indexed
under each of its tags. Holds for every registry built through `register`. -/
def wellTagged (r : Registry) : Bool :=
  (r.actionsByTag.all (fun p => p.2.all (fun id =>
      match r.actions.lookup id with
      | some a => p.1 ∈ a.tags
      | none => false)))
  && (r.actions.all (fun p => p.2.tags.all (fun t =>
      match r.actionsByTag.lookup t with
      | some ids => p.1 ∈ ids
      | none => false)))

/-- `DAGExecutor.calculateBackoff`: exponential doubles per attempt index,
linear multiplies the base delay by `attempt + 1`. -/
def calculateBackoff (attempt : Nat) (config : RetryConfig) : Nat :=
  if config.backoff = .exponential then config.delayMs * 2 ^ attempt
  else config.delayMs * (attempt + 1)

/-- One requested call (`ActionCall`): its id, the action it invokes and the
optional explicit call-level dependencies. Arguments are opaque to the
scheduling logic and omitted from the embedding. -/
structure Call where
  callId : String
  actionId : String
  dependsOn : List String := []
deriving DecidableEq

/-- `DAGExecutorConfig` after the constructor applies its defaults. -/
structure DAGConfig where
  enableCompensation : Bool := true
  enableRetry : Bool := true
  defaultRetry : Option RetryConfig := none

/-- JS `Set` construction from a list: duplicate-free, keeping the first
occurrence of each element. -/
def dedupFirst (l : List String) : List String :=
  l.foldl (fun acc x => if x ∈ acc then acc else acc ++ [x]) []

/-- `callMap.get`: for duplicate call ids, `Map.set` means the last call with
that id wins. -/
def callMapGet (calls : List Call) (cid : String) : Option Call :=
  (calls.filter (fun c => c.callId = cid)).getLast?

/-- The resolved call-level dependency set of one call (`buildExecutionOrder`,
graph construction): the explicit `dependsOn` list unioned with every call id
that invokes an action-level dependency of the call's action. A JS `Set`, so
duplicate-free keeping first insertions. -/
def callDepsOf (r : Registry) (calls : List Call) (c : Call) : List String :=
  let actionDeps := match r.get c.actionId with
    | some a => a.dependencies
    | none => []
  dedupFirst (c.dependsOn ++
    (actionDeps.map (fun ad =>
      (calls.filter (fun c2 => c2.actionId = ad)).map (fun c2 => c2.callId))).flatten)

/-- Dependency sets keyed by call id (the `graph` map; for duplicate call ids
the last `graph.set` wins, consistently with `callMap`). -/
def graphDeps (r : Registry) (calls : List Call) (cid : String) : List String :=
  match callMapGet calls cid with
  | some c => callDepsOf r calls c
  | none => []

/-- In-degree zero: every dependency of the call has already been removed. The
source counts `inDegree` and decrements it once per removed dependency; since
the dependency set is duplicate-free and removed ids never return, the counter
reaches zero exactly when all dependencies are in `removed`. -/
def ready (r : Registry) (calls : List Call) (removed : List String)
    (cid : String) : Bool :=
  (graphDeps r calls cid).all (fun d => removed.contains d)

/-- The batching loop of `buildExecutionOrder` (Kahn's algorithm): collect the
in-degree-zero calls of `remaining` into a batch, fail if the batch is empty
while calls remain, otherwise recurse on the rest. The source loops without
fuel; one unit of fuel per remaining call plus one is always enough because a
non-empty batch strictly shrinks `remaining`. -/
def topoAux (r : Registry) (calls : List Call) :
    Nat → List String → List String → Except String (List (List String))
  | 0, _, _ => .error "fuel exhausted"
  | fuel + 1, remaining, removed =>
    if remaining.isEmpty then .ok []
    else
      let batch := remaining.filter (ready r calls removed)
      if batch.isEmpty then .error "Cycle detected in action dependencies"
      else
        match topoAux r calls fuel
            (remaining.filter (fun cid => !(ready r calls removed cid)))
            (removed ++ batch) with
        | .error e => .error e
        | .ok rest => .ok (batch :: rest)

/-- `DAGExecutor.buildExecutionOrder`: empty plans yield no batches; otherwise
the call-id batches from Kahn's algorithm, resolved back to calls through the
call map. -/
def buildExecutionOrder (r : Registry) (calls : List Call) :
    Except String (List (List Call)) :=
  if calls.isEmpty then .ok []
  else
    match topoAux r calls
        ((dedupFirst (calls.map (fun c => c.callId))).length + 1)
        (dedupFirst (calls.map (fun c => c.callId))) [] with
    | .error e => .error e
    | .ok bs => .ok (bs.map (fun b => b.filterMap (callMapGet calls)))

/-- Observable execution events: a call's handler entering its first
invocation, a call's outcome being merged into the shared results map, and a
compensating handler being attempted (with whether it completed cleanly). -/
inductive Ev where
  | start (callId : String)
  | record (callId : String) (ok : Bool)
  | comp (callId : String) (ok : Bool)
deriving DecidableEq

/-- Mutable execution state threaded through one `execute` run: the shared
results map and `executedCalls` in merge order, per-action handler invocation
counts, the two counters, and the event trace. -/
structure ExecSt where
  results : List (String × Out) := []
  executed : List Call := []
  counts : List (String × Nat) := []
  succeeded : Nat := 0
  failed : Nat := 0
  trace : List Ev := []

/-- Number of handler invocations already performed for an action. -/
def getCount (counts : List (String × Nat)) (aid : String) : Nat :=
  (counts.lookup aid).getD 0

/-- Update an action's invocation count. -/
def setCount (counts : List (String × Nat)) (aid : String) (n : Nat) :
    List (String × Nat) :=
  if (counts.lookup aid).isSome then
    counts.map (fun p => if p.1 = aid then (aid, n) else p)
  else counts ++ [(aid, n)]

/-- The retry loop of `executeWithRetry` (`for attempt of 0 .. maxAttempts-1`):
`left` is the number of attempts still allowed, `attempt` the 0-based index of
the next attempt, `count` the handler's prior invocation count. Returns the
final outcome, the number of invocations performed, and the backoff delays
computed between attempts. With `maxAttempts = 0` the source's loop body never
runs and it throws the undefined `lastError`. -/
def attemptLoop (h : Nat → Out) (rc : RetryConfig) :
    Nat → Nat → Nat → Out × Nat × List Nat
  | 0, _, _ => (.error "undefined", 0, [])
  | left + 1, attempt, count =>
    match h count with
    | .ok v => (.ok v, 1, [])
    | .error e =>
      if left = 0 then (.error e, 1, [])
      else
        let rest := attemptLoop h rc left (attempt + 1) (count + 1)
        (rest.1, rest.2.1 + 1, calculateBackoff attempt rc :: rest.2.2)

/-- The retry policy in effect for an action: the action's own policy, else the
executor default, and none at all when retry is disabled. -/
def retryConfigOf (cfg : DAGConfig) (a : ActionDefinition) : Option RetryConfig :=
  if cfg.enableRetry then a.retry.orElse (fun _ => cfg.defaultRetry) else none

/-- `DAGExecutor.executeWithRetry` for a call whose action has handler `h`:
a single invocation without a policy, otherwise the retry loop. -/
def executeWithRetry (cfg : DAGConfig) (a : ActionDefinition) (h : Nat → Out)
    (count : Nat) : Out × Nat × List Nat :=
  match retryConfigOf cfg a with
  | none => (h count, 1, [])
  | some rc => attemptLoop h rc rc.maxAttempts 0 count

/-- Run one call of a batch (the body of `executeBatch`'s per-call task):
missing action and missing handler become error outcomes without invoking
anything; otherwise the handler runs under the retry policy and the start of
its first invocation is traced. -/
def runCall (r : Registry) (cfg : DAGConfig) (st : ExecSt) (c : Call) :
    Out × ExecSt :=
  match r.get c.actionId with
  | none => (.error ("Action " ++ c.actionId ++ " not found in registry"), st)
  | some a =>
    match a.handler with
    | none => (.error ("Action " ++ c.actionId ++ " has no handler"), st)
    | some h =>
      let count := getCount st.counts c.actionId
      let res := executeWithRetry cfg a h count
      (res.1, { st with counts := setCount st.counts c.actionId (count + res.2.1),
                        trace := st.trace ++ [Ev.start c.callId] })

/-- `DAGExecutor.executeBatch`: run every call of the batch to completion and
collect the per-call outcomes in batch order (the `Promise.all` join). -/
def runBatch (r : Registry) (cfg : DAGConfig) :
    List Call → ExecSt → List (Call × Out) × ExecSt
  | [], st => ([], st)
  | c :: rest, st =>
    let first := runCall r cfg st c
    let more := runBatch r cfg rest first.2
    ((c, first.1) :: more.1, more.2)

/-- Whether an outcome is a success. -/
def isOkB : Out → Bool
  | .ok _ => true
  | .error _ => false

/-- The merge loop of `execute`: record each batch outcome into the shared
results map and `executedCalls`, bump the matching counter, and stop at the
first error (returning `true` to signal the abort; outcomes after the first
error in batch order are discarded). -/
def mergeOuts : List (Call × Out) → ExecSt → ExecSt × Bool
  | [], st => (st, false)
  | (c, out) :: rest, st =>
    let st1 := { st with results := st.results ++ [(c.callId, out)],
                         executed := st.executed ++ [c],
                         trace := st.trace ++ [Ev.record c.callId (isOkB out)] }
    match out with
    | .error _ => ({ st1 with failed := st1.failed + 1 }, true)
    | .ok _ => mergeOuts rest { st1 with succeeded := st1.succeeded + 1 }

/-- One step of `DAGExecutor.compensate`: skip calls whose action lacks a
compensating handler and calls without a recorded success; otherwise attempt
the compensating handler, continuing regardless of whether it throws. -/
def compOne (r : Registry) (results : List (String × Out)) (st : ExecSt)
    (c : Call) : ExecSt :=
  match r.get c.actionId with
  | none => st
  | some a =>
    match a.compensate with
    | none => st
    | some f =>
      match results.lookup c.callId with
      | some (.ok v) => { st with trace := st.trace ++ [Ev.comp c.callId (f v)] }
      | some (.error _) => st
      | none => st

/-- `DAGExecutor.compensate`: walk the executed calls in reverse merge order. -/
def compensate (r : Registry) (st : ExecSt) : ExecSt :=
  st.executed.reverse.foldl (compOne r st.results) st

/-- The batch loop of `execute`: run and merge each batch in order; on the
first merged error, compensate (when enabled) and stop without scheduling the
remaining batches. -/
def execGo (r : Registry) (cfg : DAGConfig) :
    List (List Call) → ExecSt → ExecSt
  | [], st => st
  | b :: bs, st =>
    let ran := runBatch r cfg b st
    let merged := mergeOuts ran.1 ran.2
    if merged.2 then
      if cfg.enableCompensation then compensate r merged.1 else merged.1
    else execGo r cfg bs merged.1

/-- The observable result of one `execute` run: the thrown error if the batch
construction failed (the source increments `failed` and rethrows), otherwise
the counters, the results map, the executed calls and the event trace. -/
structure ExecOutcome where
  thrown : Option String
  succeeded : Nat
  failed : Nat
  results : List (String × Out)
  executed : List Call
  trace : List Ev

/-- `DAGExecutor.execute`. -/
def execute (r : Registry) (cfg : DAGConfig) (calls : List Call) : ExecOutcome :=
  match buildExecutionOrder r calls with
  | .error e =>
    { thrown := some e, succeeded := 0, failed := 1, results := [],
      executed := [], trace := [] }
  | .ok batches =>
    let st := execGo r cfg batches {}
    { thrown := none, succeeded := st.succeeded, failed := st.failed,
      results := st.results, executed := st.executed, trace := st.trace }

instance : DecidableEq Out := fun a b =>
  match a, b with
  | .ok x, .ok y =>
    if h : x = y then .isTrue (by rw [h])
    else .isFalse (fun hc => h (Except.ok.inj hc))
  | .error x, .error y =>
    if h : x = y then .isTrue (by rw [h])
    else .isFalse (fun hc => h (Except.error.inj hc))
  | .ok _, .error _ => .isFalse (fun hc => Except.noConfusion hc)
  | .error _, .ok _ => .isFalse (fun hc => Except.noConfusion hc)

/-! ### Derived observables used in theorem statements -/

/-- Whether an outcome is an error. -/
def isErrB (o : Out) : Bool := !(isOkB o)

/-- The call ids whose compensating handlers were attempted, in order. -/
def compEvents (tr : List Ev) : List String :=
  tr.filterMap (fun e => match e with
    | .comp cid _ => some cid
    | _ => none)

/-- The action registered under `aid` declares a compensating handler. -/
def hasCompensate (r : Registry) (aid : String) : Bool :=
  match r.get aid with
  | some a => a.compensate.isSome
  | none => false

/-- The call has a recorded success outcome in the results map. -/
def resultOk (results : List (String × Out)) (cid : String) : Bool :=
  match results.lookup cid with
  | some (.ok _) => true
  | some (.error _) => false
  | none => false

/-- The call is eligible for compensation: its action declares a compensating
handler and its recorded outcome is a success. -/
def eligible (r : Registry) (results : List (String × Out)) (c : Call) : Bool :=
  hasCompensate r c.actionId && resultOk results c.callId

/-- The call's action is registered and carries a handler, so executing the
call actually invokes a handler. -/
def handlerPresent (r : Registry) (c : Call) : Bool :=
  match r.get c.actionId with
  | some a => a.handler.isSome
  | none => false

/-- The prefix of a batch's outcome list that the merge loop records: every
entry up to and including the first error; everything after it is dropped. -/
def takeThroughErr : List (Call × Out) → List (String × Out)
  | [] => []
  | (c, out) :: rest =>
    (c.callId, out) :: (if isOkB out then takeThroughErr rest else [])

/-- The calls of a batch that the merge loop pushes onto `executedCalls`:
every call up to and including the first one whose outcome is an error. -/
def prefixCalls : List (Call × Out) → List Call
  | [] => []
  | (c, out) :: rest => c :: (if isOkB out then prefixCalls rest else [])

/-- Call `c` transitively depends on call `d` through the resolved call-level
dependency graph. -/
def DependsOn (r : Registry) (calls : List Call) (c d : String) : Prop :=
  Relation.TransGen (fun x y => y ∈ graphDeps r calls x) c d

/-- The batches are layered over `done`: every dependency of a batch member
resolves to an already-done call id, where `done` grows by each batch's call
ids in turn. This is the defining property of Kahn layering. -/
def BatchesLayered (r : Registry) (calls : List Call) :
    List String → List (List Call) → Prop
  | _, [] => True
  | done, b :: bs =>
    (∀ c ∈ b, ∀ d ∈ graphDeps r calls c.callId, d ∈ done) ∧
    BatchesLayered r calls (done ++ b.map (fun c => c.callId)) bs

/-- The ordering invariant over a trace: wherever a call's handler starts,
every call it transitively depends on already has a success entry recorded
earlier in the trace. -/
def GoodTrace (r : Registry) (calls : List Call) (tr : List Ev) : Prop :=
  ∀ t₁ c t₂, tr = t₁ ++ Ev.start c :: t₂ →
    ∀ d, DependsOn r calls c d → Ev.record d true ∈ t₁

/-- The error value is a circular-dependency error. -/
def isCircularErr : Option RegErr → Bool
  | some (.circular _) => true
  | _ => false

/-- The error value is an unknown-dependency error. -/
def isUnknownDepErr : Option RegErr → Bool
  | some (.unknownDep _ _) => true
  | _ => false

/-! ### Concrete scenarios instantiating the theorems -/

def emptyReg : Registry := {}

def baseDef : ActionDefinition := { id := "base", description := "Base" }

def loopDef : ActionDefinition :=
  { id := "loop", description := "Loop", dependencies := ["loop"] }

def regBase : Registry := (register emptyReg baseDef).1

def brokenDef : ActionDefinition :=
  { id := "broken", description := "Broken", dependencies := ["nonexistent"] }

def failDef : ActionDefinition :=
  { id := "fa", description := "Always fails",
    handler := some (fun _ => .error "boom") }

def okDef : ActionDefinition :=
  { id := "okA", description := "Succeeds", handler := some (fun _ => .ok 1) }

def regPair : Registry := (register (register emptyReg failDef).1 okDef).1

def callsPair : List Call :=
  [{ callId := "c1", actionId := "fa" }, { callId := "c2", actionId := "okA" }]

def reserveDef : ActionDefinition :=
  { id := "reserve", description := "Reserve inventory",
    handler := some (fun _ => .ok 10), compensate := some (fun _ => true) }

def chargeDef : ActionDefinition :=
  { id := "charge", description := "Charge card", dependencies := ["reserve"],
    handler := some (fun _ => .error "declined"),
    compensate := some (fun _ => true) }

def regSaga : Registry := (register (register emptyReg reserveDef).1 chargeDef).1

def callsSaga : List Call :=
  [{ callId := "r1", actionId := "reserve" }, { callId := "ch1", actionId := "charge" }]

def aDef : ActionDefinition :=
  { id := "A", description := "First", handler := some (fun _ => .ok 1) }

def bDef : ActionDefinition :=
  { id := "B", description := "Second", dependencies := ["A"],
    handler := some (fun _ => .ok 2) }

def regChain : Registry := (register (register emptyReg aDef).1 bDef).1

def callsChain : List Call :=
  [{ callId := "a", actionId := "A" }, { callId := "b", actionId := "B" }]

def callsCyc : List Call :=
  [{ callId := "x", actionId := "A", dependsOn := ["y"] },
   { callId := "y", actionId := "A", dependsOn := ["x"] }]

def alwaysFailH : Nat → Out := fun _ => .error "Permanent failure"

def flakyH : Nat → Out := fun n => if n < 2 then .error "Temporary failure" else .ok 7

def retry3 : RetryConfig := { maxAttempts := 3, backoff := .linear, delayMs := 10 }

def flakyDef : ActionDefinition :=
  { id := "flaky", description := "Flaky", handler := some flakyH, retry := some retry3 }

def failingDef : ActionDefinition :=
  { id := "failing", description := "Failing", handler := some alwaysFailH,
    retry := some retry3 }

def tagA1 : ActionDefinition := { id := "a1", description := "One", tags := ["t1", "t2"] }

def tagA2 : ActionDefinition := { id := "a2", description := "Two", tags := ["t2"] }

def tagA3 : ActionDefinition :=
  { id := "a3", description := "Three", tags := ["t1", "t2", "t3"] }

def tagReg : Registry :=
  (register (register (register emptyReg tagA1).1 tagA2).1 tagA3).1

/-! ## General lemmas -/

lemma lookup_mem {β : Type} {l : List (String × β)} {k : String} {v : β}
    (h : l.lookup k = some v) : (k, v) ∈ l := by
  rcases List.lookup_eq_some_iff.mp h with ⟨l₁, l₂, rfl, -⟩
  simp

lemma mem_foldl_filter (p : String → String → Bool) (ts : List String)
    (init : List String) (x : String) :
    x ∈ ts.foldl (fun acc tag => acc.filter (p tag)) init ↔
      x ∈ init ∧ ∀ t ∈ ts, p t x = true := by
  induction ts generalizing init with
  | nil => simp
  | cons t ts ih =>
    simp only [List.foldl_cons, ih, List.mem_filter, List.forall_mem_cons]
    tauto

/-! ## C8: backoff delays -/

/-- C8 (corrected): the claim's linear formula `base * attemptIndex` is wrong
at the code's 0-based attempt index: after the first failed attempt
(index 0) a linear policy with base delay 5 computes a delay of 5, not
`5 * 0 = 0`. -/
theorem linear_backoff_counterexample :
    calculateBackoff 0 { maxAttempts := 3, backoff := .linear, delayMs := 5 } = 5 ∧
    (5 : Nat) ≠ 5 * 0 := by decide

/-- C8 (amended): for every retry policy, the delay computed before the retry
that follows failed attempt index `attempt` (0-based, as in the source's loop
variable) is `base * 2 ^ attempt` for exponential backoff and
`base * (attempt + 1)` for linear backoff. -/
theorem backoff_formula (attempt : Nat) (config : RetryConfig) :
    calculateBackoff attempt config =
      config.delayMs * (match config.backoff with
        | .exponential => 2 ^ attempt
        | .linear => attempt + 1) := by
  rcases config with ⟨m, b, d⟩
  cases b <;> rfl

/-! ## C5: self-referential registration -/

/-- C5 (corrected): after registering `base`, registering `loop` with
dependencies `["loop"]` does fail, but with the unknown-dependency error, not
with `CircularDependencyError`: the dependency-existence check runs before
cycle detection and `loop` is not yet in the catalog. -/
theorem self_dependency_error_counterexample :
    (register regBase loopDef).2 = some (RegErr.unknownDep "loop" "loop") ∧
    isCircularErr (register regBase loopDef).2 = false := by decide

/-- C5 (amended): registering the self-referential `loop` action fails before
any execution with the unknown-dependency error naming `loop`, and leaves the
registry unchanged. -/
theorem self_dependency_fails_unknown_dep :
    register regBase loopDef = (regBase, some (RegErr.unknownDep "loop" "loop")) := by
  rfl

/-! ## C6: unknown dependencies and registration atomicity -/

/-- C6 (corrected): the claim is not true for *every* registry state: on a
locked registry, a definition declaring an unknown dependency fails with the
lock error, not with an unknown-dependency error. -/
theorem locked_registry_error_counterexample :
    brokenDef.dependencies.all
      (fun d => ((lockReg regBase).actions.lookup d).isNone) = true ∧
    (register (lockReg regBase) brokenDef).2 = some RegErr.locked ∧
    isUnknownDepErr (register (lockReg regBase) brokenDef).2 = false := by decide

/-- C6 (amended): on an unlocked registry, a structurally valid definition
whose dependency list contains an unregistered identifier fails with the
unknown-dependency error naming the first such dependency; and whenever
`register` fails for any reason, the registry is returned exactly as it was
(no partial registration). -/
theorem register_unknown_dep_and_atomic :
    (∀ r a m, r.locked = false →
      validateActionDefinition r a = none →
      a.dependencies.find? (fun d => (r.actions.lookup d).isNone) = some m →
      (register r a).2 = some (RegErr.unknownDep a.id m)) ∧
    (∀ r a, ((register r a).2).isSome = true → (register r a).1 = r) := by
  constructor
  · intro r a m hl hv hf
    simp [register, hl, hv, validateDependencies, hf]
  · intro r a h
    by_cases hl : r.locked
    · simp [register, hl]
    · simp only [Bool.not_eq_true] at hl
      cases hva : validateActionDefinition r a with
      | some e => simp [register, hl, hva]
      | none =>
        cases hvd : validateDependencies r a with
        | some e => simp [register, hl, hva, hvd]
        | none =>
          cases hdc : detectCircular r (r.actions.length + 1) a.id a.dependencies [] [] with
          | some e => simp [register, hl, hva, hvd, hdc]
          | none => simp [register, hl, hva, hvd, hdc] at h

/-- C6 witness: the unknown-dependency failure on the unlocked registry, and
atomicity of the lock failure, at concrete inputs. -/
theorem register_unknown_dep_and_atomic_witness :
    (register regBase brokenDef).2 = some (RegErr.unknownDep "broken" "nonexistent") ∧
    (register (lockReg regBase) brokenDef).1 = lockReg regBase :=
  ⟨register_unknown_dep_and_atomic.1 regBase brokenDef "nonexistent"
      (by decide) (by decide) (by decide),
   register_unknown_dep_and_atomic.2 (lockReg regBase) brokenDef (by decide)⟩

/-! ## Lemmas about the batching algorithm -/

lemma mem_dedup_foldl (l : List String) :
    ∀ (acc : List String) (x : String),
      x ∈ l.foldl (fun acc x => if x ∈ acc then acc else acc ++ [x]) acc ↔
        x ∈ acc ∨ x ∈ l := by
  induction l with
  | nil => simp
  | cons y l ih =>
    intro acc x
    simp only [List.foldl_cons]
    by_cases hy : y ∈ acc
    · rw [if_pos hy, ih]
      constructor
      · rintro (h | h)
        · exact Or.inl h
        · exact Or.inr (List.mem_cons_of_mem _ h)
      · rintro (h | h)
        · exact Or.inl h
        · rcases List.mem_cons.mp h with rfl | h
          · exact Or.inl hy
          · exact Or.inr h
    · rw [if_neg hy, ih]
      simp only [List.mem_append, List.mem_singleton, List.mem_cons]
      tauto

lemma mem_dedupFirst {l : List String} {x : String} :
    x ∈ dedupFirst l ↔ x ∈ l := by
  rw [dedupFirst, mem_dedup_foldl]
  simp

lemma dedupFirst_nodup (l : List String) : (dedupFirst l).Nodup := by
  have aux : ∀ (l acc : List String), acc.Nodup →
      (l.foldl (fun acc x => if x ∈ acc then acc else acc ++ [x]) acc).Nodup := by
    intro l
    induction l with
    | nil => intro acc h; simpa using h
    | cons y l ih =>
      intro acc hacc
      simp only [List.foldl_cons]
      by_cases hy : y ∈ acc
      · rw [if_pos hy]; exact ih acc hacc
      · rw [if_neg hy]
        exact ih _ (by simp [List.nodup_append, hacc, hy])
  exact aux l [] List.nodup_nil

lemma topoAux_cycle (r : Registry) (calls : List Call) (C : List String)
    (hne : C ≠ [])
    (hcyc : ∀ x ∈ C, ∃ y ∈ C, y ∈ graphDeps r calls x) :
    ∀ fuel remaining removed, remaining.length < fuel →
      (∀ x ∈ C, x ∈ remaining) → (∀ x ∈ C, x ∉ removed) →
      topoAux r calls fuel remaining removed =
        .error "Cycle detected in action dependencies" := by
  intro fuel
  induction fuel with
  | zero => intro remaining removed hlen; omega
  | succ n ih =>
    intro remaining removed hlen hsub hrem
    obtain ⟨c0, hc0⟩ : ∃ x, x ∈ C := by
      cases C with
      | nil => exact absurd rfl hne
      | cons a l => exact ⟨a, List.mem_cons_self a l⟩
    have hremne : remaining.isEmpty = false :=
      List.isEmpty_eq_false.mpr (List.ne_nil_of_mem (hsub c0 hc0))
    have hready : ∀ x ∈ C, ready r calls removed x = false := by
      intro x hx
      rcases hcyc x hx with ⟨y, hyC, hy⟩
      rw [ready]
      rw [Bool.eq_false_iff]
      intro hall
      rw [List.all_eq_true] at hall
      have := hall y hy
      exact hrem y hyC (List.mem_of_elem_eq_true this)
    have hCnotbatch : ∀ x ∈ C, x ∉ remaining.filter (ready r calls removed) := by
      intro x hx hmem
      rcases List.mem_filter.mp hmem with ⟨-, hrd⟩
      rw [hready x hx] at hrd
      exact Bool.false_ne_true hrd
    rw [topoAux, hremne]
    simp only [Bool.false_eq_true, if_false]
    by_cases hbatch : (remaining.filter (ready r calls removed)).isEmpty
    · rw [if_pos hbatch]
    · rw [if_neg hbatch]
      have hlen' : (remaining.filter (fun cid => !(ready r calls removed cid))).length < n := by
        have hsplit := (List.length_eq_length_filter_add (l := remaining)
          (ready r calls removed)).symm
        have hb1 : 1 ≤ (remaining.filter (ready r calls removed)).length := by
          rcases List.isEmpty_eq_false.mp (Bool.of_not_eq_true hbatch) with h
          cases hf : remaining.filter (ready r calls removed) with
          | nil => exact absurd hf h
          | cons a l => simp [hf]
        omega
      have hsub' : ∀ x ∈ C, x ∈ remaining.filter (fun cid => !(ready r calls removed cid)) := by
        intro x hx
        exact List.mem_filter.mpr ⟨hsub x hx, by rw [hready x hx]; rfl⟩
      have hrem' : ∀ x ∈ C, x ∉ removed ++ remaining.filter (ready r calls removed) := by
        intro x hx hmem
        rcases List.mem_append.mp hmem with h | h
        · exact hrem x hx h
        · exact hCnotbatch x hx h
      rw [ih _ _ hlen' hsub' hrem']

lemma topoAux_flatten (r : Registry) (calls : List Call) :
    ∀ fuel remaining removed bs,
      topoAux r calls fuel remaining removed = .ok bs → remaining.Nodup →
      bs.flatten.Nodup ∧ ∀ x ∈ bs.flatten, x ∈ remaining := by
  intro fuel
  induction fuel with
  | zero => intro remaining removed bs h; exact absurd h (by simp [topoAux])
  | succ n ih =>
    intro remaining removed bs h hnd
    rw [topoAux] at h
    by_cases hre : remaining.isEmpty
    · rw [if_pos hre] at h
      cases h
      simp
    · rw [if_neg hre] at h
      by_cases hbe : (remaining.filter (ready r calls removed)).isEmpty
      · rw [if_pos hbe] at h
        exact absurd h (by simp)
      · rw [if_neg hbe] at h
        cases ht : topoAux r calls n
            (remaining.filter (fun cid => !(ready r calls removed cid)))
            (removed ++ remaining.filter (ready r calls removed)) with
        | error e => rw [ht] at h; exact absurd h (by simp)
        | ok rest =>
          rw [ht] at h
          cases h
          obtain ⟨hrnd, hrsub⟩ := ih _ _ _ ht (hnd.filter _)
          constructor
          · rw [List.flatten_cons]
            refine (hnd.filter _).append hrnd ?_
            intro x hx1 hx2
            have h1 := (List.mem_filter.mp hx1).2
            have h2 := (List.mem_filter.mp (hrsub x hx2)).2
            rw [h1] at h2
            simp at h2
          · intro x hx
            rw [List.flatten_cons, List.mem_append] at hx
            rcases hx with hx | hx
            · exact (List.mem_filter.mp hx).1
            · exact (List.mem_filter.mp (hrsub x hx)).1

lemma callMapGet_callId {calls : List Call} {cid : String} {c : Call}
    (h : callMapGet calls cid = some c) : c.callId = cid := by
  rw [callMapGet] at h
  rcases List.getLast?_eq_some_iff.mp h with ⟨ys, hys⟩
  have hc : c ∈ (calls.filter (fun c => c.callId = cid)) := by
    rw [hys]; simp
  have := (List.mem_filter.mp hc).2
  exact decide_eq_true_iff.mp this

lemma filterMap_callMapGet_keys (calls : List Call) :
    ∀ b : List String,
      (b.filterMap (callMapGet calls)).map (fun c => c.callId) =
        b.filter (fun cid => (callMapGet calls cid).isSome) := by
  intro b
  induction b with
  | nil => rfl
  | cons cid b ih =>
    rw [List.filterMap_cons, List.filter_cons]
    cases hc : callMapGet calls cid with
    | none => simpa using ih
    | some c =>
      simp only [Option.isSome_some, if_pos]
      rw [List.map_cons, ih, callMapGet_callId hc]

lemma map_filter_flatten_sublist (p : String → Bool) :
    ∀ bs : List (List String),
      (bs.map (fun b => b.filter p)).flatten.Sublist bs.flatten := by
  intro bs
  induction bs with
  | nil => simp
  | cons b bs ih =>
    simp only [List.map_cons, List.flatten_cons]
    exact (b.filter_sublist).append ih

lemma build_keys_nodup {r : Registry} {calls : List Call}
    {batches : List (List Call)}
    (h : buildExecutionOrder r calls = .ok batches) :
    (batches.map (fun b => b.map (fun c => c.callId))).flatten.Nodup := by
  rw [buildExecutionOrder] at h
  by_cases hne : calls.isEmpty
  · rw [if_pos hne] at h
    cases h
    simp
  · rw [if_neg hne] at h
    cases ht : topoAux r calls
        ((dedupFirst (calls.map (fun c => c.callId))).length + 1)
        (dedupFirst (calls.map (fun c => c.callId))) [] with
    | error e => rw [ht] at h; exact absurd h (by simp)
    | ok bs =>
      rw [ht] at h
      cases h
      obtain ⟨hnd, -⟩ := topoAux_flatten r calls _ _ _ _ ht
        (dedupFirst_nodup _)
      have heq : ∀ b : List String,
          ((b.filterMap (callMapGet calls)).map (fun c => c.callId)) =
            b.filter (fun cid => (callMapGet calls cid).isSome) :=
        filterMap_callMapGet_keys calls
      have : (bs.map (fun b => (b.filterMap (callMapGet calls)).map
          (fun c => c.callId))).flatten.Sublist bs.flatten := by
        have := map_filter_flatten_sublist
          (fun cid => (callMapGet calls cid).isSome) bs
        simpa [heq] using this
      exact List.Nodup.sublist (by simpa [List.map_map] using this) hnd

/-! ## Lemmas about the execution loop -/

lemma runCall_fields (r : Registry) (cfg : DAGConfig) (st : ExecSt) (c : Call) :
    (runCall r cfg st c).2.results = st.results ∧
    (runCall r cfg st c).2.executed = st.executed ∧
    (runCall r cfg st c).2.succeeded = st.succeeded ∧
    (runCall r cfg st c).2.failed = st.failed ∧
    (runCall r cfg st c).2.trace =
      st.trace ++ (if handlerPresent r c then [Ev.start c.callId] else []) := by
  cases hg : r.get c.actionId with
  | none => simp [runCall, handlerPresent, hg]
  | some a =>
    cases hh : a.handler with
    | none => simp [runCall, handlerPresent, hg, hh]
    | some hfun => simp [runCall, handlerPresent, hg, hh]

lemma runBatch_fields (r : Registry) (cfg : DAGConfig) :
    ∀ (b : List Call) (st : ExecSt),
      (runBatch r cfg b st).2.results = st.results ∧
      (runBatch r cfg b st).2.executed = st.executed ∧
      (runBatch r cfg b st).2.succeeded = st.succeeded ∧
      (runBatch r cfg b st).2.failed = st.failed ∧
      (runBatch r cfg b st).1.map Prod.fst = b ∧
      (runBatch r cfg b st).2.trace =
        st.trace ++ (b.filter (fun c => handlerPresent r c)).map
          (fun c => Ev.start c.callId) := by
  intro b
  induction b with
  | nil => intro st; simp [runBatch]
  | cons c rest ih =>
    intro st
    obtain ⟨h1, h2, h3, h4, h5⟩ := runCall_fields r cfg st c
    obtain ⟨g1, g2, g3, g4, g5, g6⟩ := ih (runCall r cfg st c).2
    simp only [runBatch]
    refine ⟨?_, ?_, ?_, ?_, ?_, ?_⟩
    · rw [g1, h1]
    · rw [g2, h2]
    · rw [g3, h3]
    · rw [g4, h4]
    · rw [List.map_cons, g5]
    · rw [g6, h5, List.filter_cons]
      by_cases hp : handlerPresent r c
      · simp [hp]
      · simp [hp]

lemma mergeOuts_spec :
    ∀ (outs : List (Call × Out)) (st : ExecSt),
      (mergeOuts outs st).1.results = st.results ++ takeThroughErr outs ∧
      (mergeOuts outs st).1.executed = st.executed ++ prefixCalls outs ∧
      (mergeOuts outs st).1.trace = st.trace ++
        (takeThroughErr outs).map (fun p => Ev.record p.1 (isOkB p.2)) ∧
      (mergeOuts outs st).2 = outs.any (fun p => isErrB p.2) := by
  intro outs
  induction outs with
  | nil => intro st; simp [mergeOuts, takeThroughErr, prefixCalls]
  | cons p rest ih =>
    intro st
    obtain ⟨c, out⟩ := p
    cases out with
    | ok v =>
      obtain ⟨i1, i2, i3, i4⟩ := ih
        { st with results := st.results ++ [(c.callId, Except.ok v)],
                  executed := st.executed ++ [c],
                  trace := st.trace ++ [Ev.record c.callId (isOkB (Except.ok v))],
                  succeeded := st.succeeded + 1 }
      simp only [mergeOuts, takeThroughErr, prefixCalls, isOkB, isErrB] at *
      refine ⟨?_, ?_, ?_, ?_⟩
      · rw [i1]; simp
      · rw [i2]; simp
      · rw [i3]; simp [isOkB]
      · rw [i4]; simp [isErrB, isOkB]
    | error e =>
      simp [mergeOuts, takeThroughErr, prefixCalls, isOkB, isErrB]

lemma mergeOuts_counters :
    ∀ (outs : List (Call × Out)) (st : ExecSt),
      st.succeeded = (st.results.filter (fun p => isOkB p.2)).length →
      st.failed = (st.results.filter (fun p => isErrB p.2)).length →
      (mergeOuts outs st).1.succeeded =
        ((mergeOuts outs st).1.results.filter (fun p => isOkB p.2)).length ∧
      (mergeOuts outs st).1.failed =
        ((mergeOuts outs st).1.results.filter (fun p => isErrB p.2)).length := by
  intro outs
  induction outs with
  | nil => intro st hs hf; simpa [mergeOuts] using ⟨hs, hf⟩
  | cons p rest ih =>
    intro st hs hf
    obtain ⟨c, out⟩ := p
    cases out with
    | ok v =>
      simp only [mergeOuts]
      refine ih _ ?_ ?_
      · simp [List.filter_append, isOkB, hs]
      · simp [List.filter_append, isErrB, isOkB, hf]
    | error e =>
      simp only [mergeOuts]
      constructor
      · simp [List.filter_append, isOkB, hs]
      · simp [List.filter_append, isErrB, isOkB, hf]

lemma compOne_fields (r : Registry) (res : List (String × Out)) (st : ExecSt)
    (c : Call) :
    (compOne r res st c).results = st.results ∧
    (compOne r res st c).executed = st.executed ∧
    (compOne r res st c).succeeded = st.succeeded ∧
    (compOne r res st c).failed = st.failed ∧
    compEvents (compOne r res st c).trace = compEvents st.trace ++
      (if eligible r res c then [c.callId] else []) ∧
    (∃ extra, (compOne r res st c).trace = st.trace ++ extra ∧
      ∀ e ∈ extra, ∃ cid flag, e = Ev.comp cid flag) := by
  cases hg : r.get c.actionId with
  | none =>
    have hco : compOne r res st c = st := by simp [compOne, hg]
    have hel : eligible r res c = false := by simp [eligible, hasCompensate, hg]
    rw [hco, hel]
    exact ⟨rfl, rfl, rfl, rfl, by simp, ⟨[], by simp, by simp⟩⟩
  | some a =>
    cases hc : a.compensate with
    | none =>
      have hco : compOne r res st c = st := by simp [compOne, hg, hc]
      have hel : eligible r res c = false := by
        simp [eligible, hasCompensate, hg, hc]
      rw [hco, hel]
      exact ⟨rfl, rfl, rfl, rfl, by simp, ⟨[], by simp, by simp⟩⟩
    | some f =>
      cases hl : res.lookup c.callId with
      | none =>
        have hco : compOne r res st c = st := by simp [compOne, hg, hc, hl]
        have hel : eligible r res c = false := by
          simp [eligible, hasCompensate, resultOk, hg, hc, hl]
        rw [hco, hel]
        exact ⟨rfl, rfl, rfl, rfl, by simp, ⟨[], by simp, by simp⟩⟩
      | some o =>
        cases o with
        | ok v =>
          have hco : compOne r res st c =
              { st with trace := st.trace ++ [Ev.comp c.callId (f v)] } := by
            simp [compOne, hg, hc, hl]
          have hel : eligible r res c = true := by
            simp [eligible, hasCompensate, resultOk, hg, hc, hl]
          rw [hco, hel]
          refine ⟨rfl, rfl, rfl, rfl, ?_,
            ⟨[Ev.comp c.callId (f v)], rfl, ?_⟩⟩
          · simp [compEvents, List.filterMap_append]
          · intro e he
            simp only [List.mem_singleton] at he
            exact ⟨c.callId, f v, he⟩
        | error e =>
          have hco : compOne r res st c = st := by simp [compOne, hg, hc, hl]
          have hel : eligible r res c = false := by
            simp [eligible, hasCompensate, resultOk, hg, hc, hl]
          rw [hco, hel]
          exact ⟨rfl, rfl, rfl, rfl, by simp, ⟨[], by simp, by simp⟩⟩

lemma compFold_fields (r : Registry) (res : List (String × Out)) :
    ∀ (l : List Call) (st : ExecSt),
      (l.foldl (compOne r res) st).results = st.results ∧
      (l.foldl (compOne r res) st).executed = st.executed ∧
      (l.foldl (compOne r res) st).succeeded = st.succeeded ∧
      (l.foldl (compOne r res) st).failed = st.failed ∧
      compEvents (l.foldl (compOne r res) st).trace = compEvents st.trace ++
        (l.filter (fun c => eligible r res c)).map (fun c => c.callId) ∧
      (∃ extra, (l.foldl (compOne r res) st).trace = st.trace ++ extra ∧
        ∀ e ∈ extra, ∃ cid flag, e = Ev.comp cid flag) := by
  intro l
  induction l with
  | nil => intro st; exact ⟨rfl, rfl, rfl, rfl, by simp, [], by simp⟩
  | cons c l ih =>
    intro st
    obtain ⟨h1, h2, h3, h4, h5, extra1, he1, ho1⟩ := compOne_fields r res st c
    obtain ⟨g1, g2, g3, g4, g5, extra2, he2, ho2⟩ := ih (compOne r res st c)
    simp only [List.foldl_cons]
    refine ⟨by rw [g1, h1], by rw [g2, h2], by rw [g3, h3], by rw [g4, h4], ?_,
      extra1 ++ extra2, ?_, ?_⟩
    · rw [g5, h5, List.filter_cons]
      by_cases hp : eligible r res c
      · simp [hp]
      · simp [hp]
    · rw [he2, he1, List.append_assoc]
    · intro e he
      rcases List.mem_append.mp he with h | h
      · exact ho1 e h
      · exact ho2 e h

lemma compensate_fields (r : Registry) (st : ExecSt) :
    (compensate r st).results = st.results ∧
    (compensate r st).executed = st.executed ∧
    (compensate r st).succeeded = st.succeeded ∧
    (compensate r st).failed = st.failed := by
  obtain ⟨h1, h2, h3, h4, -, -⟩ :=
    compFold_fields r st.results st.executed.reverse st
  exact ⟨h1, h2, h3, h4⟩

lemma execGo_counters (r : Registry) (cfg : DAGConfig) :
    ∀ (bs : List (List Call)) (st : ExecSt),
      st.succeeded = (st.results.filter (fun p => isOkB p.2)).length →
      st.failed = (st.results.filter (fun p => isErrB p.2)).length →
      (execGo r cfg bs st).succeeded =
        ((execGo r cfg bs st).results.filter (fun p => isOkB p.2)).length ∧
      (execGo r cfg bs st).failed =
        ((execGo r cfg bs st).results.filter (fun p => isErrB p.2)).length := by
  intro bs
  induction bs with
  | nil => intro st hs hf; exact ⟨hs, hf⟩
  | cons b bs ih =>
    intro st hs hf
    obtain ⟨r1, -, r3, r4, -, -⟩ := runBatch_fields r cfg b st
    have hs' : (runBatch r cfg b st).2.succeeded =
        (((runBatch r cfg b st).2.results).filter (fun p => isOkB p.2)).length := by
      rw [r1, r3, hs]
    have hf' : (runBatch r cfg b st).2.failed =
        (((runBatch r cfg b st).2.results).filter (fun p => isErrB p.2)).length := by
      rw [r1, r4, hf]
    obtain ⟨m1, m2⟩ := mergeOuts_counters (runBatch r cfg b st).1
      (runBatch r cfg b st).2 hs' hf'
    simp only [execGo]
    by_cases hab : (mergeOuts (runBatch r cfg b st).1 (runBatch r cfg b st).2).2
    · rw [if_pos hab]
      by_cases hc : cfg.enableCompensation
      · rw [if_pos hc]
        obtain ⟨c1, -, c3, c4⟩ := compensate_fields r
          (mergeOuts (runBatch r cfg b st).1 (runBatch r cfg b st).2).1
        rw [c1, c3, c4]
        exact ⟨m1, m2⟩
      · rw [if_neg hc]
        exact ⟨m1, m2⟩
    · rw [if_neg hab]
      exact ih _ m1 m2

lemma takeThroughErr_keys_sublist :
    ∀ outs : List (Call × Out),
      ((takeThroughErr outs).map Prod.fst).Sublist
        (outs.map (fun p => p.1.callId)) := by
  intro outs
  induction outs with
  | nil => simp [takeThroughErr]
  | cons p rest ih =>
    obtain ⟨c, out⟩ := p
    simp only [takeThroughErr, List.map_cons]
    by_cases ho : isOkB out
    · rw [if_pos ho]
      exact (ih).cons₂ _
    · rw [if_neg ho]
      simp

lemma takeThroughErr_all_ok :
    ∀ outs : List (Call × Out), (∀ p ∈ outs, isOkB p.2 = true) →
      takeThroughErr outs = outs.map (fun p => (p.1.callId, p.2)) := by
  intro outs
  induction outs with
  | nil => intro _; rfl
  | cons p rest ih =>
    intro hall
    obtain ⟨c, out⟩ := p
    have h1 : isOkB out = true := hall (c, out) (by simp)
    simp only [takeThroughErr, List.map_cons, h1, if_pos]
    rw [ih (fun q hq => hall q (List.mem_cons_of_mem _ hq))]

lemma execGo_keys (r : Registry) (cfg : DAGConfig) :
    ∀ (bs : List (List Call)) (st : ExecSt), ∃ ks,
      (execGo r cfg bs st).results.map Prod.fst =
        st.results.map Prod.fst ++ ks ∧
      ks.Sublist (bs.map (fun b => b.map (fun c => c.callId))).flatten := by
  intro bs
  induction bs with
  | nil => intro st; exact ⟨[], by simp [execGo], by simp⟩
  | cons b bs ih =>
    intro st
    obtain ⟨r1, -, -, -, r5, -⟩ := runBatch_fields r cfg b st
    obtain ⟨m1, -, -, m4⟩ := mergeOuts_spec (runBatch r cfg b st).1
      (runBatch r cfg b st).2
    have hbkeys : (runBatch r cfg b st).1.map (fun p => p.1.callId) =
        b.map (fun c => c.callId) := by
      simpa [List.map_map, Function.comp] using
        congrArg (List.map (fun c => c.callId)) r5
    simp only [execGo, List.map_cons, List.flatten_cons]
    by_cases hab : (mergeOuts (runBatch r cfg b st).1 (runBatch r cfg b st).2).2
    · rw [if_pos hab]
      have hkeys : ∀ s : ExecSt, s.results = (mergeOuts (runBatch r cfg b st).1
          (runBatch r cfg b st).2).1.results →
          s.results.map Prod.fst = st.results.map Prod.fst ++
            (takeThroughErr (runBatch r cfg b st).1).map Prod.fst := by
        intro s hsres
        rw [hsres, m1, r1, List.map_append]
      have hsub : ((takeThroughErr (runBatch r cfg b st).1).map Prod.fst).Sublist
          (b.map (fun c => c.callId) ++
            (bs.map (fun b => b.map (fun c => c.callId))).flatten) := by
        refine List.Sublist.trans ?_ (List.sublist_append_left _ _)
        rw [← hbkeys]
        exact takeThroughErr_keys_sublist _
      by_cases hc : cfg.enableCompensation
      · rw [if_pos hc]
        obtain ⟨c1, -, -, -⟩ := compensate_fields r
          (mergeOuts (runBatch r cfg b st).1 (runBatch r cfg b st).2).1
        exact ⟨_, hkeys _ c1, hsub⟩
      · rw [if_neg hc]
        exact ⟨_, hkeys _ rfl, hsub⟩
    · rw [if_neg hab]
      have hallok : ∀ p ∈ (runBatch r cfg b st).1, isOkB p.2 = true := by
        intro p hp
        have h1 : ((runBatch r cfg b st).1.any fun p => isErrB p.2) = false := by
          rw [← m4]
          exact Bool.eq_false_iff.mpr hab
        have h2 := List.any_eq_false.mp h1 p hp
        simpa [isErrB] using h2
      obtain ⟨ks, ik, iks⟩ := ih
        (mergeOuts (runBatch r cfg b st).1 (runBatch r cfg b st).2).1
      refine ⟨b.map (fun c => c.callId) ++ ks, ?_, ?_⟩
      · rw [ik, m1, r1, List.map_append]
        rw [takeThroughErr_all_ok _ hallok]
        rw [List.map_map, List.append_assoc]
        have hcomp : List.map (Prod.fst ∘ fun p : Call × Out => (p.1.callId, p.2))
            (runBatch r cfg b st).1 = List.map (fun c => c.callId) b := by
          simpa [Function.comp] using hbkeys
        rw [hcomp]
      · exact List.Sublist.append (List.Sublist.refl _) iks

lemma compEvents_append (t1 t2 : List Ev) :
    compEvents (t1 ++ t2) = compEvents t1 ++ compEvents t2 :=
  List.filterMap_append t1 t2 _

lemma compEvents_starts (l : List Call) :
    compEvents (l.map (fun c => Ev.start c.callId)) = [] := by
  induction l with
  | nil => rfl
  | cons c l ih => simp [compEvents]

lemma compEvents_records (l : List (String × Out)) :
    compEvents (l.map (fun p => Ev.record p.1 (isOkB p.2))) = [] := by
  induction l with
  | nil => rfl
  | cons p l ih => simp [compEvents]

lemma mergeOuts_failed :
    ∀ (outs : List (Call × Out)) (st : ExecSt),
      (mergeOuts outs st).1.failed =
        st.failed + (if (mergeOuts outs st).2 = true then 1 else 0) := by
  intro outs
  induction outs with
  | nil => intro st; simp [mergeOuts]
  | cons p rest ih =>
    intro st
    obtain ⟨c, out⟩ := p
    cases out with
    | ok v => simpa [mergeOuts] using ih _
    | error e => simp [mergeOuts]

lemma execGo_comp (r : Registry) (cfg : DAGConfig)
    (hcomp : cfg.enableCompensation = true) :
    ∀ (bs : List (List Call)) (st : ExecSt),
      compEvents st.trace = [] → st.failed = 0 →
      ((execGo r cfg bs st).failed = 0 ∧
        compEvents (execGo r cfg bs st).trace = []) ∨
      (compEvents (execGo r cfg bs st).trace =
        (((execGo r cfg bs st).executed.filter
          (fun c => eligible r (execGo r cfg bs st).results c)).reverse).map
          (fun c => c.callId)) := by
  intro bs
  induction bs with
  | nil => intro st h1 h2; exact Or.inl ⟨h2, h1⟩
  | cons b bs ih =>
    intro st h1 h2
    obtain ⟨rb1, rb2, rb3, rb4, -, rb6⟩ := runBatch_fields r cfg b st
    obtain ⟨m1, m2, m3, m4⟩ := mergeOuts_spec (runBatch r cfg b st).1
      (runBatch r cfg b st).2
    have hre : compEvents (runBatch r cfg b st).2.trace = [] := by
      rw [rb6, compEvents_append, compEvents_starts, h1]
      rfl
    have hme : compEvents (mergeOuts (runBatch r cfg b st).1
        (runBatch r cfg b st).2).1.trace = [] := by
      rw [m3, compEvents_append, compEvents_records, hre]
      rfl
    simp only [execGo]
    by_cases hab : (mergeOuts (runBatch r cfg b st).1 (runBatch r cfg b st).2).2
    · rw [if_pos hab, if_pos hcomp]
      right
      obtain ⟨f1, f2, -, -, f5, -⟩ := compFold_fields r
        (mergeOuts (runBatch r cfg b st).1 (runBatch r cfg b st).2).1.results
        (mergeOuts (runBatch r cfg b st).1 (runBatch r cfg b st).2).1.executed.reverse
        (mergeOuts (runBatch r cfg b st).1 (runBatch r cfg b st).2).1
      rw [compensate] at *
      rw [f5, hme, List.nil_append, f1, f2, List.filter_reverse]
    · rw [if_neg hab]
      refine ih _ hme ?_
      have := mergeOuts_failed (runBatch r cfg b st).1 (runBatch r cfg b st).2
      rw [if_neg hab] at this
      rw [this, rb4, h2]

/-! ## C9: counters match the results map -/

/-- C9 (confirmed): whenever `execute` returns normally, the succeeded and
failed counts are exactly the numbers of success and error entries of the
returned results map, they sum to the number of entries, and the map's keys
are distinct call ids (so the association list is a faithful JS `Map`). -/
theorem counts_match_results (r : Registry) (cfg : DAGConfig) (calls : List Call)
    (h : (execute r cfg calls).thrown = none) :
    (execute r cfg calls).succeeded + (execute r cfg calls).failed =
      (execute r cfg calls).results.length ∧
    (execute r cfg calls).succeeded =
      ((execute r cfg calls).results.filter (fun p => isOkB p.2)).length ∧
    (execute r cfg calls).failed =
      ((execute r cfg calls).results.filter (fun p => isErrB p.2)).length ∧
    ((execute r cfg calls).results.map Prod.fst).Nodup := by
  rw [execute] at h ⊢
  cases hb : buildExecutionOrder r calls with
  | error e => rw [hb] at h; simp at h
  | ok batches =>
    rw [hb] at h
    dsimp only at h ⊢
    obtain ⟨hs, hf⟩ := execGo_counters r cfg batches {} (by simp) (by simp)
    obtain ⟨ks, hk, hksub⟩ := execGo_keys r cfg batches {}
    have hnodup : ((execGo r cfg batches {}).results.map Prod.fst).Nodup := by
      rw [hk]
      simp only [ExecSt.results, List.map_nil, List.nil_append]
      exact List.Nodup.sublist hksub (build_keys_nodup hb)
    refine ⟨?_, hs, hf, hnodup⟩
    rw [hs, hf]
    have := List.length_eq_length_filter_add
      (l := (execGo r cfg batches {}).results) (fun p => isOkB p.2)
    have heq : ((execGo r cfg batches {}).results.filter
        (fun p => !(isOkB p.2))).length =
        ((execGo r cfg batches {}).results.filter (fun p => isErrB p.2)).length := by
      rfl
    omega

/-- C9 witness: the two-call dependency chain whose calls both succeed. -/
theorem counts_match_results_witness :
    (execute regChain {} callsChain).thrown = none ∧
    (execute regChain {} callsChain).succeeded +
      (execute regChain {} callsChain).failed =
      (execute regChain {} callsChain).results.length :=
  ⟨by decide, (counts_match_results regChain {} callsChain (by decide)).1⟩

/-! ## Lemmas for the ordering invariant -/

lemma callMapGet_isSome {calls : List Call} {cid : String}
    (h : cid ∈ calls.map (fun c => c.callId)) :
    (callMapGet calls cid).isSome := by
  rcases List.mem_map.mp h with ⟨c, hc, rfl⟩
  rw [callMapGet]
  refine List.getLast?_isSome.mpr (List.ne_nil_of_mem (a := c) ?_)
  exact List.mem_filter.mpr ⟨hc, by simp⟩

lemma topoAux_layered (r : Registry) (calls : List Call) :
    ∀ fuel remaining removed bs,
      topoAux r calls fuel remaining removed = .ok bs →
      (∀ x ∈ remaining, (callMapGet calls x).isSome) →
      BatchesLayered r calls removed
        (bs.map (fun b => b.filterMap (callMapGet calls))) := by
  intro fuel
  induction fuel with
  | zero => intro remaining removed bs h; exact absurd h (by simp [topoAux])
  | succ n ih =>
    intro remaining removed bs h hsome
    rw [topoAux] at h
    by_cases hre : remaining.isEmpty
    · rw [if_pos hre] at h
      cases h
      simp [BatchesLayered]
    · rw [if_neg hre] at h
      by_cases hbe : (remaining.filter (ready r calls removed)).isEmpty
      · rw [if_pos hbe] at h
        exact absurd h (by simp)
      · rw [if_neg hbe] at h
        cases ht : topoAux r calls n
            (remaining.filter (fun cid => !(ready r calls removed cid)))
            (removed ++ remaining.filter (ready r calls removed)) with
        | error e => rw [ht] at h; exact absurd h (by simp)
        | ok rest =>
          rw [ht] at h
          cases h
          have hbatchsome : ∀ x ∈ remaining.filter (ready r calls removed),
              (callMapGet calls x).isSome := by
            intro x hx
            exact hsome x (List.mem_filter.mp hx).1
          have hkeys : ((remaining.filter (ready r calls removed)).filterMap
              (callMapGet calls)).map (fun c => c.callId) =
              remaining.filter (ready r calls removed) := by
            rw [filterMap_callMapGet_keys]
            exact List.filter_eq_self.mpr hbatchsome
          rw [List.map_cons]
          refine ⟨?_, ?_⟩
          · intro c hc d hd
            rcases List.mem_filterMap.mp hc with ⟨cid, hcid, hcget⟩
            rw [callMapGet_callId hcget] at hd
            have hready := (List.mem_filter.mp hcid).2
            rw [ready, List.all_eq_true] at hready
            exact List.mem_of_elem_eq_true (hready d hd)
          · rw [hkeys]
            refine ih _ _ _ ht ?_
            intro x hx
            exact hsome x (List.mem_filter.mp hx).1

lemma reach_in_done (r : Registry) (calls : List Call) (done : List String)
    (hclosed : ∀ x ∈ done, ∀ y ∈ graphDeps r calls x, y ∈ done) :
    ∀ c d, DependsOn r calls c d →
      (∀ y ∈ graphDeps r calls c, y ∈ done) → d ∈ done := by
  intro c d h
  induction h using Relation.TransGen.head_induction_on with
  | base hstep => intro hc; exact hc _ hstep
  | ih hstep htrans iha => intro hc; exact iha (hclosed _ (hc _ hstep))

lemma goodTrace_append (r : Registry) (calls : List Call) {tr extra : List Ev}
    (h : GoodTrace r calls tr)
    (h2 : ∀ t₁ c t₂, extra = t₁ ++ Ev.start c :: t₂ →
      ∀ d, DependsOn r calls c d → Ev.record d true ∈ tr ++ t₁) :
    GoodTrace r calls (tr ++ extra) := by
  intro t₁ c t₂ heq d hdep
  rcases List.append_eq_append_iff.mp heq with ⟨a', ha1, ha2⟩ | ⟨c', hc1, hc2⟩
  · rw [ha1]
    exact h2 a' c t₂ ha2 d hdep
  · cases c' with
    | nil =>
      rw [List.nil_append] at hc2
      have hrec := h2 [] c t₂ hc2.symm d hdep
      rw [List.append_nil] at hrec
      rw [List.append_nil] at hc1
      rw [← hc1]
      exact hrec
    | cons e es =>
      rw [List.cons_append] at hc2
      injection hc2 with he hrest
      refine h t₁ c es ?_ d hdep
      rw [hc1, he]

lemma goodTrace_nostart (r : Registry) (calls : List Call) {tr extra : List Ev}
    (h : GoodTrace r calls tr)
    (hx : ∀ cid, Ev.start cid ∉ extra) :
    GoodTrace r calls (tr ++ extra) := by
  refine goodTrace_append r calls h ?_
  intro t₁ c t₂ heq d hdep
  exact absurd (heq ▸ (List.mem_append.mpr (Or.inr (List.mem_cons_self _ _))))
    (hx c)

lemma runCall_good (r : Registry) (cfg : DAGConfig) (calls : List Call)
    (st : ExecSt) (c : Call)
    (h : GoodTrace r calls st.trace)
    (hdeps : ∀ d, DependsOn r calls c.callId d → Ev.record d true ∈ st.trace) :
    GoodTrace r calls (runCall r cfg st c).2.trace := by
  obtain ⟨-, -, -, -, h5⟩ := runCall_fields r cfg st c
  rw [h5]
  refine goodTrace_append r calls h ?_
  intro t₁ c' t₂ heq d hdep
  by_cases hp : handlerPresent r c
  · rw [if_pos hp] at heq
    cases t₁ with
    | nil =>
      rw [List.nil_append] at heq
      injection heq with he _
      injection he with hcid
      rw [List.append_nil]
      exact hdeps d (hcid ▸ hdep)
    | cons e es =>
      rw [List.cons_append] at heq
      injection heq with _ hrest
      exact absurd hrest.symm (by simp)
  · rw [if_neg hp] at heq
    exact absurd heq.symm (by simp)

lemma runBatch_good (r : Registry) (cfg : DAGConfig) (calls : List Call) :
    ∀ (b : List Call) (st : ExecSt),
      GoodTrace r calls st.trace →
      (∀ c ∈ b, ∀ d, DependsOn r calls c.callId d →
        Ev.record d true ∈ st.trace) →
      GoodTrace r calls (runBatch r cfg b st).2.trace := by
  intro b
  induction b with
  | nil => intro st h _; exact h
  | cons c rest ih =>
    intro st h hdeps
    simp only [runBatch]
    refine ih (runCall r cfg st c).2
      (runCall_good r cfg calls st c h (hdeps c (List.mem_cons_self _ _))) ?_
    intro c' hc' d hdep
    obtain ⟨-, -, -, -, h5⟩ := runCall_fields r cfg st c
    rw [h5]
    exact List.mem_append.mpr
      (Or.inl (hdeps c' (List.mem_cons_of_mem _ hc') d hdep))

lemma execGo_good (r : Registry) (cfg : DAGConfig) (calls : List Call) :
    ∀ (bs : List (List Call)) (st : ExecSt) (done : List String),
      BatchesLayered r calls done bs →
      (∀ x ∈ done, ∀ y ∈ graphDeps r calls x, y ∈ done) →
      (∀ x ∈ done, Ev.record x true ∈ st.trace) →
      GoodTrace r calls st.trace →
      GoodTrace r calls (execGo r cfg bs st).trace := by
  intro bs
  induction bs with
  | nil => intro st done _ _ _ h; exact h
  | cons b bs ih =>
    intro st done hlay hclosed hrec h
    obtain ⟨hb, hrest⟩ := hlay
    have hdeps : ∀ c ∈ b, ∀ d, DependsOn r calls c.callId d →
        Ev.record d true ∈ st.trace := by
      intro c hc d hdep
      refine hrec d (reach_in_done r calls done hclosed c.callId d hdep ?_)
      intro y hy
      exact hb c hc y hy
    have hgood1 := runBatch_good r cfg calls b st h hdeps
    obtain ⟨rb1, -, -, rb4, -, rb6⟩ := runBatch_fields r cfg b st
    obtain ⟨m1, -, m3, m4⟩ := mergeOuts_spec (runBatch r cfg b st).1
      (runBatch r cfg b st).2
    have hgood2 : GoodTrace r calls
        (mergeOuts (runBatch r cfg b st).1 (runBatch r cfg b st).2).1.trace := by
      rw [m3]
      refine goodTrace_nostart r calls hgood1 ?_
      intro cid hm
      rcases List.mem_map.mp hm with ⟨p, -, hp⟩
      exact Ev.noConfusion hp
    simp only [execGo]
    by_cases hab : (mergeOuts (runBatch r cfg b st).1 (runBatch r cfg b st).2).2
    · rw [if_pos hab]
      by_cases hc : cfg.enableCompensation
      · rw [if_pos hc]
        obtain ⟨-, -, -, -, -, extra, hex, hox⟩ := compFold_fields r
          (mergeOuts (runBatch r cfg b st).1 (runBatch r cfg b st).2).1.results
          (mergeOuts (runBatch r cfg b st).1
            (runBatch r cfg b st).2).1.executed.reverse
          (mergeOuts (runBatch r cfg b st).1 (runBatch r cfg b st).2).1
        rw [compensate, hex]
        refine goodTrace_nostart r calls hgood2 ?_
        intro cid hm
        rcases hox _ hm with ⟨cid', flag, hflag⟩
        exact Ev.noConfusion hflag
      · rw [if_neg hc]
        exact hgood2
    · rw [if_neg hab]
      have hallok : ∀ p ∈ (runBatch r cfg b st).1, isOkB p.2 = true := by
        intro p hp
        have h1 : ((runBatch r cfg b st).1.any fun p => isErrB p.2) = false := by
          rw [← m4]
          exact Bool.eq_false_iff.mpr hab
        have h2 := List.any_eq_false.mp h1 p hp
        simpa [isErrB] using h2
      have hbkeys : (runBatch r cfg b st).1.map (fun p => p.1.callId) =
          b.map (fun c => c.callId) := by
        obtain ⟨-, -, -, -, r5, -⟩ := runBatch_fields r cfg b st
        simpa [List.map_map, Function.comp] using
          congrArg (List.map (fun c => c.callId)) r5
      refine ih _ (done ++ b.map (fun c => c.callId)) hrest ?_ ?_ hgood2
      · intro x hx y hy
        rcases List.mem_append.mp hx with hx | hx
        · exact List.mem_append.mpr (Or.inl (hclosed x hx y hy))
        · rcases List.mem_map.mp hx with ⟨c, hc, rfl⟩
          exact List.mem_append.mpr (Or.inl (hb c hc y hy))
      · intro x hx
        rw [m3, rb6]
        rcases List.mem_append.mp hx with hx | hx
        · refine List.mem_append.mpr (Or.inl ?_)
          exact List.mem_append.mpr (Or.inl (hrec x hx))
        · refine List.mem_append.mpr (Or.inr ?_)
          rw [takeThroughErr_all_ok _ hallok, List.map_map]
          rcases List.mem_map.mp (hbkeys ▸ hx :
              x ∈ (runBatch r cfg b st).1.map (fun p => p.1.callId)) with
            ⟨p, hp, hpx⟩
          refine List.mem_map.mpr ⟨p, hp, ?_⟩
          simp only [Function.comp]
          rw [hpx, hallok p hp]

/-! ## C1: execution respects transitive dependencies -/

/-- C1 (confirmed): for every plan, registry and configuration, whenever a
call's handler is started during execution (a start event in the trace), every
call it transitively depends on — through explicit `dependsOn` references or
registry action-level dependencies resolved to calls — already has a success
outcome recorded in the shared results map earlier in the trace. Plans whose
graphs are cyclic throw before anything runs, so the invariant holds for all
plans. -/
theorem execution_respects_transitive_deps (r : Registry) (cfg : DAGConfig)
    (calls : List Call) (c d : String) (t₁ t₂ : List Ev)
    (hdep : DependsOn r calls c d)
    (htr : (execute r cfg calls).trace = t₁ ++ Ev.start c :: t₂) :
    Ev.record d true ∈ t₁ := by
  revert htr
  rw [execute]
  cases hb : buildExecutionOrder r calls with
  | error e =>
    intro htr
    dsimp only at htr
    rcases List.append_eq_nil.mp htr.symm with ⟨-, h2⟩
    exact absurd h2 (by simp)
  | ok batches =>
    intro htr
    dsimp only at htr
    have hlay : BatchesLayered r calls [] batches := by
      rw [buildExecutionOrder] at hb
      by_cases hne : calls.isEmpty
      · rw [if_pos hne] at hb
        cases hb
        simp [BatchesLayered]
      · rw [if_neg hne] at hb
        cases ht : topoAux r calls
            ((dedupFirst (calls.map (fun c => c.callId))).length + 1)
            (dedupFirst (calls.map (fun c => c.callId))) [] with
        | error e => rw [ht] at hb; exact absurd hb (by simp)
        | ok bs =>
          rw [ht] at hb
          cases hb
          refine topoAux_layered r calls _ _ _ _ ht ?_
          intro x hx
          exact callMapGet_isSome (mem_dedupFirst.mp hx)
    have hgood := execGo_good r cfg calls batches {} [] hlay
      (by simp) (by simp) ?_
    · exact hgood t₁ c t₂ htr d hdep
    · intro t₁' c' t₂' habs
      rcases List.append_eq_nil.mp habs.symm with ⟨-, h2⟩
      exact absurd h2 (by simp)

/-- C1 witness: in the two-call chain `b` depends on `a`; at the start of
`b`'s handler, `a`'s success is already recorded. -/
theorem execution_respects_transitive_deps_witness :
    "a" ∈ graphDeps regChain callsChain "b" ∧
    Ev.record "a" true ∈ [Ev.start "a", Ev.record "a" true] :=
  ⟨by decide,
    execution_respects_transitive_deps regChain {} callsChain "b" "a"
      [Ev.start "a", Ev.record "a" true] [Ev.record "b" true]
      (Relation.TransGen.single (by decide)) (by decide)⟩

/-! ## C2: compensation set and order -/

/-- C2 (confirmed): when execution returns normally with a failure and
compensation is enabled, the compensating handlers attempted are exactly those
of the calls that have a recorded success outcome and whose action declares a
compensating handler, in strict reverse merge (completion) order; calls that
failed or never ran are not compensated, and the list is unconditionally
complete regardless of what any individual compensating handler returns or
throws. -/
theorem compensation_exact_reverse_order (r : Registry) (cfg : DAGConfig)
    (calls : List Call) (hcomp : cfg.enableCompensation = true)
    (hnorm : (execute r cfg calls).thrown = none)
    (hfail : (execute r cfg calls).failed ≠ 0) :
    compEvents (execute r cfg calls).trace =
      (((execute r cfg calls).executed.filter
        (fun c => eligible r (execute r cfg calls).results c)).reverse).map
        (fun c => c.callId) := by
  revert hnorm hfail
  rw [execute]
  cases hb : buildExecutionOrder r calls with
  | error e => intro hnorm hfail; simp at hnorm
  | ok batches =>
    intro hnorm hfail
    dsimp only at hfail ⊢
    rcases execGo_comp r cfg hcomp batches {} rfl rfl with ⟨hf0, -⟩ | h
    · exact absurd hf0 hfail
    · exact h

/-- C2 witness: the reserve/charge saga — `reserve` succeeds, `charge` fails,
and exactly `reserve`'s call is compensated. -/
theorem compensation_exact_reverse_order_witness :
    ({} : DAGConfig).enableCompensation = true ∧
    compEvents (execute regSaga {} callsSaga).trace =
      (((execute regSaga {} callsSaga).executed.filter
        (fun c => eligible regSaga (execute regSaga {} callsSaga).results c)).reverse).map
        (fun c => c.callId) :=
  ⟨rfl, compensation_exact_reverse_order regSaga {} callsSaga rfl
    (by decide) (by decide)⟩

/-! ## C3: a failing batch records only its prefix -/

/-- C3 (corrected): concrete counterexample to the claim as stated — in the
single batch `[c1 (fails), c2 (succeeds)]` both handlers run, but `c2`'s
outcome is absent from the returned results map and succeeded + failed = 1,
not 2: the merge loop returns at the first error and discards the rest of the
batch. -/
theorem sibling_outcome_dropped_counterexample :
    (execute regPair {} callsPair).thrown = none ∧
    Ev.start "c2" ∈ (execute regPair {} callsPair).trace ∧
    (execute regPair {} callsPair).results.lookup "c2" = none ∧
    (execute regPair {} callsPair).succeeded +
      (execute regPair {} callsPair).failed = 1 ∧
    callsPair.length = 2 := by decide

/-- C3 (amended): when some call of a batch fails after its retries, every
sibling with a registered handler still runs to completion (its start event is
traced), but the merge loop records only the batch's outcomes up to and
including the first error in batch order — entries after it are discarded from
the results map and the counters — and the remaining batches are never
scheduled: execution ends with this batch (followed by compensation when
enabled). -/
theorem failing_batch_prefix_recorded (r : Registry) (cfg : DAGConfig)
    (b : List Call) (bs : List (List Call)) (st : ExecSt)
    (hfail : ((runBatch r cfg b st).1.any (fun p => isErrB p.2)) = true) :
    (b.all (fun c => !(handlerPresent r c) ||
      decide (Ev.start c.callId ∈ (runBatch r cfg b st).2.trace))) = true ∧
    (mergeOuts (runBatch r cfg b st).1 (runBatch r cfg b st).2).1.results =
      st.results ++ takeThroughErr (runBatch r cfg b st).1 ∧
    execGo r cfg (b :: bs) st =
      (if cfg.enableCompensation then
        compensate r
          (mergeOuts (runBatch r cfg b st).1 (runBatch r cfg b st).2).1
      else (mergeOuts (runBatch r cfg b st).1 (runBatch r cfg b st).2).1) := by
  obtain ⟨r1, -, -, -, -, r6⟩ := runBatch_fields r cfg b st
  obtain ⟨m1, -, -, m4⟩ := mergeOuts_spec (runBatch r cfg b st).1
    (runBatch r cfg b st).2
  have habort : (mergeOuts (runBatch r cfg b st).1 (runBatch r cfg b st).2).2 = true := by
    rw [m4]; exact hfail
  refine ⟨?_, ?_, ?_⟩
  · rw [List.all_eq_true]
    intro c hc
    by_cases hp : handlerPresent r c
    · have hmem : Ev.start c.callId ∈ (runBatch r cfg b st).2.trace := by
        rw [r6, List.mem_append]
        right
        exact List.mem_map.mpr ⟨c, List.mem_filter.mpr ⟨hc, by simp [hp]⟩, rfl⟩
      simp [hp, hmem]
    · simp [hp]
  · rw [m1, r1]
  · simp only [execGo]
    rw [habort, if_pos rfl]

/-- C3 witness: the amended statement at the concrete two-call batch whose
first call fails. -/
theorem failing_batch_prefix_recorded_witness :
    ((runBatch regPair {} callsPair {}).1.any (fun p => isErrB p.2)) = true ∧
    ((callsPair.all (fun c => !(handlerPresent regPair c) ||
      decide (Ev.start c.callId ∈ (runBatch regPair {} callsPair {}).2.trace))) = true ∧
    (mergeOuts (runBatch regPair {} callsPair {}).1
        (runBatch regPair {} callsPair {}).2).1.results =
      ({} : ExecSt).results ++ takeThroughErr (runBatch regPair {} callsPair {}).1 ∧
    execGo regPair {} (callsPair :: []) {} =
      (if ({} : DAGConfig).enableCompensation then
        compensate regPair
          (mergeOuts (runBatch regPair {} callsPair {}).1
            (runBatch regPair {} callsPair {}).2).1
      else (mergeOuts (runBatch regPair {} callsPair {}).1
        (runBatch regPair {} callsPair {}).2).1)) :=
  ⟨by decide, failing_batch_prefix_recorded regPair {} callsPair [] {} (by decide)⟩

/-! ## C7: cycles abort execution before any call runs -/

/-- C7 (confirmed): if the call-level dependency graph contains a cycle — a
non-empty set of plan call ids each of which depends on another member of the
set — then `execute` throws the cycle-detection error, and its trace is empty:
no call's handler was invoked. -/
theorem cycle_throws_before_execution (r : Registry) (cfg : DAGConfig)
    (calls : List Call) (C : List String) (hne : C ≠ [])
    (hsub : ∀ x ∈ C, x ∈ calls.map (fun c => c.callId))
    (hcyc : ∀ x ∈ C, ∃ y ∈ C, y ∈ graphDeps r calls x) :
    (execute r cfg calls).thrown = some "Cycle detected in action dependencies" ∧
    (execute r cfg calls).trace = [] := by
  obtain ⟨c0, hc0⟩ : ∃ x, x ∈ C := by
    cases C with
    | nil => exact absurd rfl hne
    | cons a l => exact ⟨a, List.mem_cons_self a l⟩
  have hcallsne : calls.isEmpty = false := by
    rw [List.isEmpty_eq_false]
    intro hnil
    rw [hnil] at hsub
    simpa using hsub c0 hc0
  have htopo := topoAux_cycle r calls C hne hcyc
    ((dedupFirst (calls.map (fun c => c.callId))).length + 1)
    (dedupFirst (calls.map (fun c => c.callId))) []
    (Nat.lt_succ_self _)
    (fun x hx => mem_dedupFirst.mpr (hsub x hx))
    (fun x _ => List.not_mem_nil x)
  rw [execute, buildExecutionOrder, hcallsne]
  simp only [Bool.false_eq_true, if_false]
  rw [htopo]
  exact ⟨rfl, rfl⟩

/-- C7 witness: the two-call plan whose `dependsOn` lists form a cycle. -/
theorem cycle_throws_before_execution_witness :
    (execute emptyReg {} callsCyc).thrown =
      some "Cycle detected in action dependencies" ∧
    (execute emptyReg {} callsCyc).trace = [] :=
  cycle_throws_before_execution emptyReg {} callsCyc ["x", "y"]
    (by decide) (by decide) (by decide)

/-! ## C4: retry invocation counts -/

/-- C4 (confirmed): with retry enabled and an effective policy of three
attempts, a handler that fails on its first three invocations is invoked
exactly 3 times and the recorded outcome is the final failure; a handler that
fails twice and then succeeds is invoked exactly 3 times and the recorded
outcome is the success value. (The third component lists the backoff delays
computed between attempts.) -/
theorem retry_three_attempts (cfg : DAGConfig) (a : ActionDefinition)
    (h : Nat → Out) (rc : RetryConfig)
    (hrc : retryConfigOf cfg a = some rc) (hm : rc.maxAttempts = 3) :
    (∀ e0 e1 e2, h 0 = .error e0 → h 1 = .error e1 → h 2 = .error e2 →
      executeWithRetry cfg a h 0 =
        (.error e2, 3, [calculateBackoff 0 rc, calculateBackoff 1 rc])) ∧
    (∀ e0 e1 v, h 0 = .error e0 → h 1 = .error e1 → h 2 = .ok v →
      executeWithRetry cfg a h 0 =
        (.ok v, 3, [calculateBackoff 0 rc, calculateBackoff 1 rc])) := by
  constructor
  · intro e0 e1 e2 h0 h1 h2
    simp [executeWithRetry, hrc, hm, attemptLoop, h0, h1, h2]
  · intro e0 e1 v h0 h1 h2
    simp [executeWithRetry, hrc, hm, attemptLoop, h0, h1, h2]

/-- C4 witness: the always-failing and fail-twice-then-succeed handlers under
the concrete `maxAttempts = 3` linear policy with base delay 10. -/
theorem retry_three_attempts_witness :
    executeWithRetry {} failingDef alwaysFailH 0 =
      (.error "Permanent failure", 3, [10, 20]) ∧
    executeWithRetry {} flakyDef flakyH 0 = (.ok 7, 3, [10, 20]) := by
  constructor
  · have h := (retry_three_attempts {} failingDef alwaysFailH retry3 rfl rfl).1
      "Permanent failure" "Permanent failure" "Permanent failure" rfl rfl rfl
    simpa using h
  · have h := (retry_three_attempts {} flakyDef flakyH retry3 rfl rfl).2
      "Temporary failure" "Temporary failure" 7 rfl rfl rfl
    simpa using h

/-! ## C10: tag intersection lookup -/

lemma wellTagged_mem_tag {r : Registry} (hw : wellTagged r = true) {id : String}
    {a : ActionDefinition} (ha : r.actions.lookup id = some a) (t : String) :
    id ∈ (r.actionsByTag.lookup t).getD [] ↔ t ∈ a.tags := by
  rcases Bool.and_eq_true_iff.mp hw with ⟨h1, h2⟩
  rw [List.all_eq_true] at h1 h2
  constructor
  · intro hid
    cases hlt : r.actionsByTag.lookup t with
    | none => rw [hlt] at hid; simp at hid
    | some ids =>
      rw [hlt] at hid
      have := h1 (t, ids) (lookup_mem hlt)
      rw [List.all_eq_true] at this
      have := this id hid
      simp only at this
      rw [ha] at this
      exact decide_eq_true_iff.mp this
  · intro ht
    have := h2 (id, a) (lookup_mem ha)
    rw [List.all_eq_true] at this
    have := this t ht
    simp only at this
    cases hlt : r.actionsByTag.lookup t with
    | none => rw [hlt] at this; simp at this
    | some ids =>
      rw [hlt] at this
      simpa using this

/-- C10 (confirmed): `getByTags` on an empty tag list returns the empty list,
and on a non-empty tag list (over a registry whose tag index is consistent
with its catalog, as `register` keeps it) it returns exactly the registered
actions whose tag sets include every listed tag. -/
theorem getByTags_empty_and_intersection :
    (∀ r, getByTags r [] = []) ∧
    (∀ r ts a, wellTagged r = true → ts ≠ [] →
      (a ∈ getByTags r ts ↔
        ∃ id, r.actions.lookup id = some a ∧ ∀ t ∈ ts, t ∈ a.tags)) := by
  constructor
  · intro r; rfl
  · intro r ts a hw hne
    cases ts with
    | nil => exact absurd rfl hne
    | cons t ts =>
      simp only [getByTags, List.mem_filterMap]
      constructor
      · rintro ⟨id, hid, ha⟩
        rw [mem_foldl_filter] at hid
        refine ⟨id, ha, ?_⟩
        intro t' ht'
        rcases List.mem_cons.mp ht' with rfl | ht'
        · exact (wellTagged_mem_tag hw ha t').mp hid.1
        · exact (wellTagged_mem_tag hw ha t').mp
            (decide_eq_true_iff.mp (hid.2 t' ht'))
      · rintro ⟨id, ha, htags⟩
        refine ⟨id, ?_, ha⟩
        rw [mem_foldl_filter]
        refine ⟨(wellTagged_mem_tag hw ha t).mpr (htags t (by simp)), ?_⟩
        intro t' ht'
        exact decide_eq_true ((wellTagged_mem_tag hw ha t').mpr
          (htags t' (List.mem_cons_of_mem _ ht')))

/-- C10 witness: the empty query and the two-tag intersection on a concrete
three-action registry. -/
theorem getByTags_empty_and_intersection_witness :
    getByTags tagReg [] = [] ∧ tagA1 ∈ getByTags tagReg ["t1", "t2"] :=
  ⟨getByTags_empty_and_intersection.1 tagReg,
   (getByTags_empty_and_intersection.2 tagReg ["t1", "t2"] tagA1
      (by decide) (by decide)).mpr ⟨"a1", rfl, by decide⟩⟩

end NLAP
